import Mathlib

/-!
Verification of the llm-council frontend (frontend/src/api.js, frontend/src/App.jsx)
against its natural-language specification.  JavaScript strings are embedded as
`List Char`; JSON payloads are abstract type parameters; `||`-style defaulting is
embedded by explicit helpers mirroring JavaScript truthiness on the values that
actually occur (absent = `none`, empty string falsy).
-/

set_option autoImplicit false

/-! ### SSE stream parsing — `api.sendMessageStream` (frontend/src/api.js)

The reader loop appends each decoded network chunk to `buffer`, splits on the
blank-line separator `"\n\n"`, keeps the trailing partial segment in `buffer`,
and for every complete segment whose trimmed text starts with `"data: "` tries
`JSON.parse` on the remainder, invoking `onEvent(event.type, event)` on success
and skipping the segment on parse failure. -/

/-- JavaScript `s.split('\n\n')`: split at each non-overlapping occurrence of
the two-character separator, scanning left to right. -/
def splitSep : List Char → List (List Char)
  | [] => [[]]
  | [c] => [[c]]
  | c1 :: c2 :: rest =>
    if c1 = '\n' ∧ c2 = '\n' then
      [] :: splitSep rest
    else
      match splitSep (c2 :: rest) with
      | [] => [[c1]]
      | seg :: segs => (c1 :: seg) :: segs

/-- Whitespace stripped by `String.prototype.trim` (the characters occurring
in SSE payloads). -/
def isJsSpace (c : Char) : Bool :=
  c = ' ' || c = '\n' || c = '\t' || c = '\r'

/-- JavaScript `s.trim()`. -/
def jsTrim (s : List Char) : List Char :=
  ((s.dropWhile isJsSpace).reverse.dropWhile isJsSpace).reverse

/-- One iteration of the `for (const evt of events)` body: trim the segment,
require the `"data: "` marker, JSON-parse the remainder (`line.slice(6)`).
`parse` stands for `JSON.parse` (returns `none` exactly when it throws) and
`jt` reads the `type` field of a parsed event; a delivered callback invocation
carries the pair `(event.type, event)`. -/
def emitOf {J : Type} (parse : List Char → Option J) (jt : J → String)
    (seg : List Char) : Option (String × J) :=
  let line := jsTrim seg
  if ("data: ".toList).isPrefixOf line then
    match parse (line.drop 6) with
    | some e => some (jt e, e)
    | none => none
  else none

/-- One `reader.read()` iteration: `buffer += chunk`, split on blank lines,
pop the trailing partial segment back into the buffer, deliver the rest in
order. Returns (new buffer, delivered callback invocations). -/
def processChunk {J : Type} (parse : List Char → Option J) (jt : J → String)
    (buffer chunk : List Char) : List Char × List (String × J) :=
  let segs := splitSep (buffer ++ chunk)
  (segs.getLastD [], segs.dropLast.filterMap (emitOf parse jt))

/-- The whole `while (true)` reader loop over the successive decoded chunks. -/
def runStream {J : Type} (parse : List Char → Option J) (jt : J → String)
    (buffer : List Char) : List (List Char) → List Char × List (String × J)
  | [] => (buffer, [])
  | c :: cs =>
    let pr := processChunk parse jt buffer c
    let rest := runStream parse jt pr.1 cs
    (rest.1, pr.2 ++ rest.2)

theorem splitSep_ne_nil : ∀ s, splitSep s ≠ [] := by
  intro s
  induction s using splitSep.induct with
  | case1 => simp [splitSep]
  | case2 c => simp [splitSep]
  | case3 c1 c2 rest h ih =>
    simp [splitSep, h]
  | case4 c1 c2 rest h ih =>
    simp only [splitSep, if_neg h]
    split <;> simp_all
  | case5 c1 c2 rest h seg segs hsp ih =>
    simp only [splitSep, if_neg h, hsp]
    simp

/-- The first segment of a split of a non-empty string is either empty (the
string opens with the separator, giving at least two segments) or begins with
the string's first character. -/
theorem splitSep_cons_shape (c : Char) (l : List Char) :
    (∃ ss, splitSep (c :: l) = [] :: ss ∧ ss ≠ []) ∨
    (∃ t ts, splitSep (c :: l) = (c :: t) :: ts) := by
  match l with
  | [] => exact Or.inr ⟨[], [], rfl⟩
  | c2 :: rest =>
    by_cases h : c = '\n' ∧ c2 = '\n'
    · refine Or.inl ⟨splitSep rest, ?_, splitSep_ne_nil rest⟩
      simp [splitSep, h]
    · rcases hsp : splitSep (c2 :: rest) with _ | ⟨seg, segs⟩
      · exact absurd hsp (splitSep_ne_nil _)
      · refine Or.inr ⟨seg, segs, ?_⟩
        simp [splitSep, if_neg h, hsp]

/-- Unfolding lemma for the no-separator-at-front case. -/
theorem splitSep_cons_eq {c1 c2 : Char} {rest seg : List Char}
    {segs : List (List Char)} (h : ¬(c1 = '\n' ∧ c2 = '\n'))
    (hsp : splitSep (c2 :: rest) = seg :: segs) :
    splitSep (c1 :: c2 :: rest) = (c1 :: seg) :: segs := by
  simp [splitSep, if_neg h, hsp]

theorem getLastD_congr {α : Type} {l : List α} (h : l ≠ []) (d d' : α) :
    l.getLastD d = l.getLastD d' := by
  rcases l with _ | ⟨a, l⟩
  · exact absurd rfl h
  · rw [List.getLastD_cons, List.getLastD_cons]

/-- Splitting a concatenation: the first part's segments are final except the
last, which recombines with the rest before splitting further (this is exactly
why the reader loop may re-split `buffer + chunk` each iteration). -/
theorem splitSep_append (y : List Char) : ∀ x : List Char,
    splitSep (x ++ y) =
      (splitSep x).dropLast ++ splitSep ((splitSep x).getLastD [] ++ y) := by
  intro x
  induction x using splitSep.induct with
  | case1 => simp [splitSep]
  | case2 c => simp [splitSep]
  | case3 c1 c2 rest h ih =>
    obtain ⟨rfl, rfl⟩ := h
    have hne := splitSep_ne_nil rest
    rcases hsp : splitSep rest with _ | ⟨z, zs⟩
    · exact absurd hsp hne
    · have lhs : splitSep (('\n' :: '\n' :: rest) ++ y) = [] :: splitSep (rest ++ y) := by
        simp [splitSep]
      have rhs1 : splitSep ('\n' :: '\n' :: rest) = [] :: z :: zs := by
        simp [splitSep, hsp]
      rw [lhs, rhs1, ih, hsp]
      simp [List.getLastD_cons]
  | case4 c1 c2 rest h hdead =>
    exact absurd hdead (splitSep_ne_nil _)
  | case5 c1 c2 rest h seg segs hsp ih =>
    have hx : splitSep (c1 :: c2 :: rest) = (c1 :: seg) :: segs := splitSep_cons_eq h hsp
    have hihy : splitSep ((c2 :: rest) ++ y) =
        (splitSep (c2 :: rest)).dropLast ++
          splitSep ((splitSep (c2 :: rest)).getLastD [] ++ y) := ih
    rw [hsp] at hihy
    rcases segs with _ | ⟨s2, ss⟩
    · -- the split of c2 :: rest is a single segment, which must start with c2
      have hseg : ∃ t0, seg = c2 :: t0 := by
        rcases splitSep_cons_shape c2 rest with ⟨ss0, hss0, hne0⟩ | ⟨t0, ts0, ht0⟩
        · rw [hsp] at hss0
          obtain ⟨h1, h2⟩ := List.cons.inj hss0
          exact absurd h2.symm hne0
        · rw [hsp] at ht0
          obtain ⟨h1, h2⟩ := List.cons.inj ht0
          exact ⟨t0, h1⟩
      obtain ⟨t0, rfl⟩ := hseg
      simp only [List.dropLast_single, List.getLastD_cons, List.getLastD_nil,
        List.nil_append] at hihy
      -- both sides reduce through the split of (c2 :: t0) ++ y
      have hne2 := splitSep_ne_nil ((c2 :: t0) ++ y)
      rcases hu : splitSep ((c2 :: t0) ++ y) with _ | ⟨u, us⟩
      · exact absurd hu hne2
      · have hcy : splitSep (c2 :: (rest ++ y)) = u :: us := by
          rw [← List.cons_append, hihy, hu]
        have lhs2 : splitSep ((c1 :: c2 :: rest) ++ y) = (c1 :: u) :: us := by
          rw [List.cons_append, List.cons_append]
          exact splitSep_cons_eq h (by rw [← List.cons_append] at hcy ⊢; exact hcy)
        have hu' : splitSep (c2 :: (t0 ++ y)) = u :: us := by
          rw [← List.cons_append]; exact hu
        have rhs2 : splitSep ((c1 :: c2 :: t0) ++ y) = (c1 :: u) :: us := by
          rw [List.cons_append, List.cons_append]
          exact splitSep_cons_eq h hu'
        rw [lhs2, hx]
        simp only [List.dropLast_single, List.getLastD_cons, List.getLastD_nil,
          List.nil_append]
        rw [← rhs2]
    · -- at least two segments: the head segment is final, recurse on the tail
      have hcy : splitSep (c2 :: (rest ++ y)) =
          seg :: ((s2 :: ss).dropLast ++ splitSep ((s2 :: ss).getLastD seg ++ y)) := by
        rw [← List.cons_append, hihy, List.getLastD_cons, List.dropLast_cons₂,
          List.cons_append]
      have lhs2 : splitSep ((c1 :: c2 :: rest) ++ y) =
          (c1 :: seg) :: ((s2 :: ss).dropLast ++ splitSep ((s2 :: ss).getLastD seg ++ y)) := by
        rw [List.cons_append, List.cons_append]
        exact splitSep_cons_eq h (by rw [← List.cons_append] at hcy ⊢; exact hcy)
      rw [lhs2, hx]
      have hlast : ((c1 :: seg) :: s2 :: ss).getLastD [] = (s2 :: ss).getLastD seg := by
        rw [List.getLastD_cons]
        exact getLastD_congr (by simp) _ _
      rw [hlast, List.dropLast_cons₂, List.cons_append]

/-- The trailing segment retained in the buffer never itself contains the
blank-line separator: splitting it again leaves it whole. -/
theorem splitSep_getLastD (s : List Char) :
    splitSep ((splitSep s).getLastD []) = [(splitSep s).getLastD []] := by
  induction s using splitSep.induct with
  | case1 => simp [splitSep]
  | case2 c => simp [splitSep]
  | case3 c1 c2 rest h ih =>
    obtain ⟨rfl, rfl⟩ := h
    have hne := splitSep_ne_nil rest
    rcases hsp : splitSep rest with _ | ⟨z, zs⟩
    · exact absurd hsp hne
    · have rhs1 : splitSep ('\n' :: '\n' :: rest) = [] :: z :: zs := by
        simp [splitSep, hsp]
      rw [rhs1, List.getLastD_cons]
      rw [hsp] at ih
      exact ih
  | case4 c1 c2 rest h hdead =>
    exact absurd hdead (splitSep_ne_nil _)
  | case5 c1 c2 rest h seg segs hsp ih =>
    have hx : splitSep (c1 :: c2 :: rest) = (c1 :: seg) :: segs := splitSep_cons_eq h hsp
    rw [hsp] at ih
    rcases segs with _ | ⟨s2, ss⟩
    · rw [hx]
      simp only [List.getLastD_cons, List.getLastD_nil] at ih ⊢
      rcases hs : seg with _ | ⟨d, t0⟩
      · simp [splitSep]
      · have hd : d = c2 := by
          rcases splitSep_cons_shape c2 rest with ⟨ss0, hss0, _⟩ | ⟨t1, ts1, ht1⟩
          · rw [hsp, hs] at hss0
            exact absurd (List.cons.inj hss0).1 (by simp)
          · rw [hsp, hs] at ht1
            exact (List.cons.inj (List.cons.inj ht1).1).1
        subst hd
        rw [hs] at ih
        exact splitSep_cons_eq h ih
    · rw [hx, List.getLastD_cons,
        getLastD_congr (l := s2 :: ss) (by simp) (c1 :: seg) seg]
      rw [List.getLastD_cons] at ih
      exact ih

theorem getLastD_append {α : Type} (l₁ : List α) {l₂ : List α} (h : l₂ ≠ []) :
    ∀ d : α, (l₁ ++ l₂).getLastD d = l₂.getLastD d := by
  induction l₁ with
  | nil => intro d; rfl
  | cons a l ihl =>
    intro d
    rw [List.cons_append, List.getLastD_cons, ihl a, getLastD_congr h a d]

/-- The reader loop over any chunking, started from a separator-free buffer,
delivers exactly the complete segments of the full received text (in order)
and retains the trailing partial segment. -/
theorem runStream_eq {J : Type} (parse : List Char → Option J) (jt : J → String) :
    ∀ (chunks : List (List Char)) (b : List Char), splitSep b = [b] →
      runStream parse jt b chunks =
        ((splitSep (b ++ chunks.flatten)).getLastD [],
         (splitSep (b ++ chunks.flatten)).dropLast.filterMap (emitOf parse jt)) := by
  intro chunks
  induction chunks with
  | nil =>
    intro b hb
    simp [runStream, hb]
  | cons c cs ih =>
    intro b hb
    have hb1 : splitSep ((splitSep (b ++ c)).getLastD []) =
        [(splitSep (b ++ c)).getLastD []] := splitSep_getLastD (b ++ c)
    have ihc := ih ((splitSep (b ++ c)).getLastD []) hb1
    have hsplit := splitSep_append (cs.flatten) (b ++ c)
    have hjoin : b ++ (c :: cs).flatten = (b ++ c) ++ cs.flatten := by
      simp [List.flatten_cons]
    have hTne := splitSep_ne_nil ((splitSep (b ++ c)).getLastD [] ++ cs.flatten)
    simp only [runStream, processChunk]
    rw [ihc, hjoin, hsplit]
    refine Prod.ext ?_ ?_
    · show (splitSep ((splitSep (b ++ c)).getLastD [] ++ cs.flatten)).getLastD [] =
        ((splitSep (b ++ c)).dropLast ++
          splitSep ((splitSep (b ++ c)).getLastD [] ++ cs.flatten)).getLastD []
      rw [getLastD_append _ hTne]
    · show (splitSep (b ++ c)).dropLast.filterMap (emitOf parse jt) ++
          (splitSep ((splitSep (b ++ c)).getLastD [] ++ cs.flatten)).dropLast.filterMap
            (emitOf parse jt) =
        ((splitSep (b ++ c)).dropLast ++
          splitSep ((splitSep (b ++ c)).getLastD [] ++ cs.flatten)).dropLast.filterMap
            (emitOf parse jt)
      rw [List.dropLast_append_of_ne_nil _ hTne, List.filterMap_append]

/-- C1. For every input byte stream consumed by `api.sendMessageStream`, the
`onEvent` callback is invoked exactly once per complete SSE chunk (text
delimited by a blank line `"\n\n"`) whose trimmed content starts with
`"data: "` and whose remainder parses as JSON, in stream order, with
arguments `(event.type, event)`; a trailing chunk not yet terminated by a
blank line is retained in the buffer and not delivered, and a chunk whose
payload fails JSON parsing is skipped (its `emitOf` is `none`, dropped by
`filterMap`) without aborting delivery of subsequent events. -/
theorem claim_C1_sse_event_delivery {J : Type}
    (parse : List Char → Option J) (jt : J → String) (chunks : List (List Char)) :
    runStream parse jt [] chunks =
      ((splitSep chunks.flatten).getLastD [],
       (splitSep chunks.flatten).dropLast.filterMap (emitOf parse jt)) := by
  have h := runStream_eq parse jt chunks [] (by simp [splitSep])
  simpa using h

example :
    runStream
      (fun s => if s = "\x7b\x7d".toList then some 1 else if s = "[]".toList then some 2 else none)
      (fun n => if n = 1 then "a" else "b")
      []
      ["data: \x7b\x7d\n\nda".toList, "ta: []\n\njunk\n\ndata: oops\n\ndata: tail".toList] =
    ("data: tail".toList, [("a", 1), ("b", 2)]) := by
  decide

/-! ### UI state and streamed-event dispatch — `handleSendMessage` (App.jsx)

The React state touched by the send flow is `currentConversation`, `isLoading`
and `sendError`.  (`title_complete` and `complete` additionally refetch the
sidebar conversation list, which is outside this state; `complete` also clears
`isLoading`.)  Stage payloads (`event.data`) and `event.metadata` are opaque
JSON values, embedded as type parameters. -/

structure LoadingFlags where
  stage1 : Bool
  stage2 : Bool
  stage3 : Bool
deriving DecidableEq

/-- A message in `conversation.messages`.  User messages carry only
`role`/`content`; the optimistic assistant message starts with all stage
fields `null` and all loading flags `false`. -/
structure Message (δ μ : Type) where
  role : String
  content : Option String
  stage1 : Option δ
  stage2 : Option δ
  stage3 : Option δ
  metadata : Option μ
  loading : LoadingFlags
deriving DecidableEq

structure Conversation (δ μ : Type) where
  id : String
  title : Option String
  council_key : Option String
  messages : List (Message δ μ)
deriving DecidableEq

structure UIState (δ μ : Type) where
  currentConversation : Conversation δ μ
  isLoading : Bool
  sendError : String
deriving DecidableEq

/-- A parsed SSE event as consumed by the `onEvent` callback. -/
structure StreamEvent (δ μ : Type) where
  type : String
  data : Option δ
  metadata : Option μ
  message : Option String
deriving DecidableEq

/-- JavaScript `a || b` for a possibly-absent string (`undefined` and `''`
are falsy). -/
def jsOrS (o : Option String) (d : String) : String :=
  match o with
  | some s => if s = "" then d else s
  | none => d

/-- `const messages = [...prev.messages]; const lastMsg = messages[length-1];
<mutate lastMsg>`: replace the last element.  The handlers only run after the
send flow appended two messages, so the list is never empty there (on `[]` the
JavaScript would fault; we return `[]`). -/
def setLast {α : Type} (f : α → α) : List α → List α
  | [] => []
  | [m] => [f m]
  | m :: m2 :: ms => m :: setLast f (m2 :: ms)

/-- Apply an update to the last message of the current conversation, leaving
every other field of the state untouched. -/
def updLast {δ μ : Type} (f : Message δ μ → Message δ μ) (st : UIState δ μ) :
    UIState δ μ :=
  { st with
    currentConversation :=
      { st.currentConversation with
        messages := setLast f st.currentConversation.messages } }

/-- The `switch (eventType)` dispatcher inside `handleSendMessage`'s
`onEvent` callback (App.jsx).  A JavaScript `switch` on `===` is embedded as
a chain of equality tests in case order. -/
def dispatchEvent {δ μ : Type} (ev : StreamEvent δ μ) (st : UIState δ μ) :
    UIState δ μ :=
  if ev.type = "stage1_start" then
    updLast (fun m => { m with loading := { m.loading with stage1 := true } }) st
  else if ev.type = "stage1_complete" then
    updLast (fun m =>
      { m with stage1 := ev.data, loading := { m.loading with stage1 := false } }) st
  else if ev.type = "stage2_start" then
    updLast (fun m => { m with loading := { m.loading with stage2 := true } }) st
  else if ev.type = "stage2_complete" then
    updLast (fun m =>
      { m with stage2 := ev.data, metadata := ev.metadata,
               loading := { m.loading with stage2 := false } }) st
  else if ev.type = "stage3_start" then
    updLast (fun m => { m with loading := { m.loading with stage3 := true } }) st
  else if ev.type = "stage3_complete" then
    updLast (fun m =>
      { m with stage3 := ev.data, loading := { m.loading with stage3 := false } }) st
  else if ev.type = "title_complete" then
    st
  else if ev.type = "complete" then
    { st with isLoading := false }
  else if ev.type = "error" then
    { st with
      sendError := jsOrS ev.message "Failed to send message. Check API key in Settings.",
      isLoading := false }
  else
    st

theorem setLast_append_singleton {α : Type} (f : α → α) :
    ∀ (ms : List α) (m : α), setLast f (ms ++ [m]) = ms ++ [f m] := by
  intro ms
  induction ms with
  | nil => intro m; rfl
  | cons a ms ihm =>
    intro m
    rcases ms with _ | ⟨b, ms⟩
    · rfl
    · show a :: setLast f ((b :: ms) ++ [m]) = a :: ((b :: ms) ++ [f m])
      rw [ihm m]

/-- C2. The `onEvent` dispatcher distinguishes exactly the nine event types of
the interface table and performs the documented state update: each
`stageN_start` sets that stage's loading flag, each `stageN_complete` stores
`event.data` on the in-progress assistant message (the last message) and
clears the flag, `title_complete` leaves the modeled send state unchanged
(it only refetches the sidebar list), and both `complete` and `error` clear
the overall loading state, with `error` also recording `event.message` as the
user-visible send error. -/
theorem claim_C2_dispatch_documented_updates {δ μ : Type} (ev : StreamEvent δ μ)
    (st : UIState δ μ) (ms0 : List (Message δ μ)) (mlast : Message δ μ)
    (h : st.currentConversation.messages = ms0 ++ [mlast]) :
    (ev.type = "stage1_start" →
      (dispatchEvent ev st).currentConversation.messages =
        ms0 ++ [{ mlast with loading := { mlast.loading with stage1 := true } }]) ∧
    (ev.type = "stage1_complete" →
      (dispatchEvent ev st).currentConversation.messages =
        ms0 ++ [{ mlast with
                    stage1 := ev.data
                    loading := { mlast.loading with stage1 := false } }]) ∧
    (ev.type = "stage2_start" →
      (dispatchEvent ev st).currentConversation.messages =
        ms0 ++ [{ mlast with loading := { mlast.loading with stage2 := true } }]) ∧
    (ev.type = "stage2_complete" →
      (dispatchEvent ev st).currentConversation.messages =
        ms0 ++ [{ mlast with
                    stage2 := ev.data
                    metadata := ev.metadata
                    loading := { mlast.loading with stage2 := false } }]) ∧
    (ev.type = "stage3_start" →
      (dispatchEvent ev st).currentConversation.messages =
        ms0 ++ [{ mlast with loading := { mlast.loading with stage3 := true } }]) ∧
    (ev.type = "stage3_complete" →
      (dispatchEvent ev st).currentConversation.messages =
        ms0 ++ [{ mlast with
                    stage3 := ev.data
                    loading := { mlast.loading with stage3 := false } }]) ∧
    (ev.type = "title_complete" → dispatchEvent ev st = st) ∧
    (ev.type = "complete" →
      (dispatchEvent ev st).isLoading = false ∧
      (dispatchEvent ev st).currentConversation = st.currentConversation ∧
      (dispatchEvent ev st).sendError = st.sendError) ∧
    (ev.type = "error" →
      (dispatchEvent ev st).isLoading = false ∧
      ∀ m : String, ev.message = some m → m ≠ "" →
        (dispatchEvent ev st).sendError = m) := by
  refine ⟨?_, ?_, ?_, ?_, ?_, ?_, ?_, ?_, ?_⟩
  · intro ht
    simp [dispatchEvent, ht, updLast, h, setLast_append_singleton]
  · intro ht
    simp [dispatchEvent, ht, updLast, h, setLast_append_singleton]
  · intro ht
    simp [dispatchEvent, ht, updLast, h, setLast_append_singleton]
  · intro ht
    simp [dispatchEvent, ht, updLast, h, setLast_append_singleton]
  · intro ht
    simp [dispatchEvent, ht, updLast, h, setLast_append_singleton]
  · intro ht
    simp [dispatchEvent, ht, updLast, h, setLast_append_singleton]
  · intro ht
    simp [dispatchEvent, ht]
  · intro ht
    simp [dispatchEvent, ht]
  · intro ht
    refine ⟨by simp [dispatchEvent, ht], ?_⟩
    intro m hm hne
    simp [dispatchEvent, ht, jsOrS, hm, hne]

theorem claim_C2_witness :
    (dispatchEvent (δ := Nat) (μ := Nat)
        ⟨"stage1_start", none, none, none⟩
        ⟨⟨"c1", none, none,
          [⟨"assistant", none, none, none, none, none, ⟨false, false, false⟩⟩]⟩,
          true, ""⟩).currentConversation.messages =
      [⟨"assistant", none, none, none, none, none, ⟨true, false, false⟩⟩] := by
  have h := (claim_C2_dispatch_documented_updates (δ := Nat) (μ := Nat)
    ⟨"stage1_start", none, none, none⟩
    ⟨⟨"c1", none, none,
      [⟨"assistant", none, none, none, none, none, ⟨false, false, false⟩⟩]⟩,
      true, ""⟩
    [] ⟨"assistant", none, none, none, none, none, ⟨false, false, false⟩⟩ rfl).1 rfl
  simpa using h

/-- The six stage event types handled by replacing only the last message. -/
def stageEventTypes : List String :=
  ["stage1_start", "stage1_complete", "stage2_start",
   "stage2_complete", "stage3_start", "stage3_complete"]

/-- C7. On a `stage2_complete` event `handleSendMessage` stores `event.data`
(the per-model rankings) and `event.metadata` (carrying `label_to_model` and
`aggregate_rankings`, read by the Stage2 view) on the last message of the
current conversation, and every stage event handler modifies only that last
message: all earlier messages and every other field of the conversation
object (`id`, `title`, `council_key`) — and the rest of the UI send state —
are unchanged. -/
theorem claim_C7_stage2_complete_and_frame {δ μ : Type} (ev : StreamEvent δ μ)
    (st : UIState δ μ) (ms0 : List (Message δ μ)) (mlast : Message δ μ)
    (h : st.currentConversation.messages = ms0 ++ [mlast])
    (hstage : ev.type ∈ stageEventTypes) :
    (∃ m', (dispatchEvent ev st).currentConversation.messages = ms0 ++ [m']) ∧
    (dispatchEvent ev st).currentConversation.id = st.currentConversation.id ∧
    (dispatchEvent ev st).currentConversation.title = st.currentConversation.title ∧
    (dispatchEvent ev st).currentConversation.council_key =
      st.currentConversation.council_key ∧
    (dispatchEvent ev st).isLoading = st.isLoading ∧
    (dispatchEvent ev st).sendError = st.sendError ∧
    (ev.type = "stage2_complete" →
      (dispatchEvent ev st).currentConversation.messages =
        ms0 ++ [{ mlast with
                    stage2 := ev.data
                    metadata := ev.metadata
                    loading := { mlast.loading with stage2 := false } }]) := by
  simp only [stageEventTypes, List.mem_cons, List.not_mem_nil, or_false] at hstage
  rcases hstage with ht | ht | ht | ht | ht | ht
  · refine ⟨⟨{ mlast with loading := { mlast.loading with stage1 := true } }, ?_⟩,
      ?_, ?_, ?_, ?_, ?_, ?_⟩ <;>
      simp [dispatchEvent, ht, updLast, h, setLast_append_singleton]
  · refine ⟨⟨{ mlast with
        stage1 := ev.data
        loading := { mlast.loading with stage1 := false } }, ?_⟩,
      ?_, ?_, ?_, ?_, ?_, ?_⟩ <;>
      simp [dispatchEvent, ht, updLast, h, setLast_append_singleton]
  · refine ⟨⟨{ mlast with loading := { mlast.loading with stage2 := true } }, ?_⟩,
      ?_, ?_, ?_, ?_, ?_, ?_⟩ <;>
      simp [dispatchEvent, ht, updLast, h, setLast_append_singleton]
  · refine ⟨⟨{ mlast with
        stage2 := ev.data
        metadata := ev.metadata
        loading := { mlast.loading with stage2 := false } }, ?_⟩,
      ?_, ?_, ?_, ?_, ?_, ?_⟩ <;>
      simp [dispatchEvent, ht, updLast, h, setLast_append_singleton]
  · refine ⟨⟨{ mlast with loading := { mlast.loading with stage3 := true } }, ?_⟩,
      ?_, ?_, ?_, ?_, ?_, ?_⟩ <;>
      simp [dispatchEvent, ht, updLast, h, setLast_append_singleton]
  · refine ⟨⟨{ mlast with
        stage3 := ev.data
        loading := { mlast.loading with stage3 := false } }, ?_⟩,
      ?_, ?_, ?_, ?_, ?_, ?_⟩ <;>
      simp [dispatchEvent, ht, updLast, h, setLast_append_singleton]

theorem claim_C7_witness :
    (dispatchEvent (δ := Nat) (μ := Nat)
        ⟨"stage2_complete", some 5, some 9, none⟩
        ⟨⟨"c1", none, none,
          [⟨"assistant", none, none, none, none, none, ⟨false, true, false⟩⟩]⟩,
          true, ""⟩).currentConversation.messages =
      [⟨"assistant", none, none, some 5, none, some 9, ⟨false, false, false⟩⟩] := by
  have h := (claim_C7_stage2_complete_and_frame (δ := Nat) (μ := Nat)
    ⟨"stage2_complete", some 5, some 9, none⟩
    ⟨⟨"c1", none, none,
      [⟨"assistant", none, none, none, none, none, ⟨false, true, false⟩⟩]⟩,
      true, ""⟩
    [] ⟨"assistant", none, none, none, none, none, ⟨false, true, false⟩⟩ rfl
    (by simp [stageEventTypes])).2.2.2.2.2.2 rfl
  simpa using h

/-- C10. For every streamed event whose type is none of the nine handled
event types, the dispatcher's `default` branch leaves all UI state unchanged
(it only logs the unknown type): `currentConversation`, `isLoading` and
`sendError` keep their values. -/
theorem claim_C10_unknown_event_is_noop {δ μ : Type} (ev : StreamEvent δ μ)
    (st : UIState δ μ)
    (h : ev.type ∉ (stageEventTypes ++ ["title_complete", "complete", "error"])) :
    dispatchEvent ev st = st := by
  simp only [stageEventTypes, List.append_eq, List.cons_append, List.nil_append,
    List.mem_cons, List.not_mem_nil, or_false, not_or] at h
  obtain ⟨n1, n2, n3, n4, n5, n6, n7, n8, n9⟩ := h
  simp [dispatchEvent, n1, n2, n3, n4, n5, n6, n7, n8, n9]

theorem claim_C10_witness :
    dispatchEvent (δ := Nat) (μ := Nat)
        ⟨"heartbeat", some 5, some 9, some "oops"⟩
        ⟨⟨"c1", some "T", some "default",
          [⟨"assistant", none, none, none, none, none, ⟨true, false, false⟩⟩]⟩,
          true, "old"⟩ =
      ⟨⟨"c1", some "T", some "default",
          [⟨"assistant", none, none, none, none, none, ⟨true, false, false⟩⟩]⟩,
          true, "old"⟩ :=
  claim_C10_unknown_event_is_noop
    ⟨"heartbeat", some 5, some 9, some "oops"⟩
    ⟨⟨"c1", some "T", some "default",
      [⟨"assistant", none, none, none, none, none, ⟨true, false, false⟩⟩]⟩,
      true, "old"⟩
    (by simp [stageEventTypes])

/-! ### Send-failure recovery — `handleSendMessage`'s catch handler (App.jsx) -/

/-- JavaScript `hay.includes(needle)` on embedded strings. -/
def hasSub (needle : List Char) : List Char → Bool
  | [] => needle.isEmpty
  | c :: rest => needle.isPrefixOf (c :: rest) || hasSub needle rest

/-- The optimistic user message `{ role: 'user', content }` (its stage fields
and loading flags are absent in JavaScript; the dispatcher never reads them
on a user message, so they are embedded as `none`/`false`). -/
def userMessage {δ μ : Type} (content : String) : Message δ μ :=
  ⟨"user", some content, none, none, none, none, ⟨false, false, false⟩⟩

/-- The partial assistant message appended before streaming begins. -/
def assistantInit {δ μ : Type} : Message δ μ :=
  ⟨"assistant", none, none, none, none, none, ⟨false, false, false⟩⟩

/-- Entry of `handleSendMessage`: `setIsLoading(true); setSendError('')`. -/
def sendStart {δ μ : Type} (st : UIState δ μ) : UIState δ μ :=
  { st with isLoading := true, sendError := "" }

/-- The two optimistic `setCurrentConversation` appends before the stream. -/
def appendOptimistic {δ μ : Type} (content : String) (st : UIState δ μ) :
    UIState δ μ :=
  { st with
    currentConversation :=
      { st.currentConversation with
        messages := st.currentConversation.messages ++
          [userMessage content, assistantInit] } }

/-- The `catch` handler: `messages.slice(0, -2)` (embedded as
`take (length - 2)`, identical for every length), then a non-empty error
message — the thrown error's message, replaced by a backend-reachability
hint when it mentions a network-layer failure, or a default when absent or
empty — and `setIsLoading(false)`. -/
def handleSendFailure {δ μ : Type} (errMsg : Option String) (st : UIState δ μ) :
    UIState δ μ :=
  let message := jsOrS errMsg "Failed to send. Verify your API key and model settings."
  let hint := hasSub "network".toList message.toLower.toList ||
    hasSub "failed to fetch".toList message.toLower.toList
  { st with
    currentConversation :=
      { st.currentConversation with
        messages := st.currentConversation.messages.take
          (st.currentConversation.messages.length - 2) }
    sendError :=
      if hint then
        "Failed to reach the backend. Ensure the server is running and your API key/models are set in Settings."
      else message
    isLoading := false }

theorem jsOrS_ne_empty (o : Option String) (d : String) (hd : d ≠ "") :
    jsOrS o d ≠ "" := by
  cases o with
  | none => simpa [jsOrS] using hd
  | some s =>
    by_cases hs : s = "" <;> simp [jsOrS, hs, hd]

/-- C8. If `api.sendMessageStream` throws after `handleSendMessage` has
optimistically appended the user message and the assistant placeholder, the
catch handler removes exactly those two trailing messages, restoring the
conversation's messages list to its value before the send, and records a
non-empty send-error message while clearing the loading flag. -/
theorem claim_C8_catch_restores_prior_messages {δ μ : Type} (st : UIState δ μ)
    (content : String) (errMsg : Option String) :
    (handleSendFailure errMsg
        (appendOptimistic content (sendStart st))).currentConversation.messages =
      st.currentConversation.messages ∧
    (handleSendFailure errMsg
        (appendOptimistic content (sendStart st))).sendError ≠ "" ∧
    (handleSendFailure errMsg
        (appendOptimistic content (sendStart st))).isLoading = false := by
  refine ⟨?_, ?_, rfl⟩
  · show (st.currentConversation.messages ++
        [userMessage content, assistantInit]).take
        ((st.currentConversation.messages ++
          [userMessage content, assistantInit]).length - 2) =
      st.currentConversation.messages
    rw [List.take_left' (by simp)]
  · show (if _ then _ else _) ≠ ""
    split
    · decide
    · exact jsOrS_ne_empty errMsg _ (by decide)

/-! ### Council configuration — settings modal (App.jsx / its multi-council
revision).  `handleToggleModel` and the head of `handleSaveSettings` are
identical in both App.jsx versions; `handleRemoveModel` and
`handleSelectEditingCouncil` come from the multi-council revision. -/

structure Council where
  key : String
  name : String
  council_models : List String
  chairman_model : String
deriving DecidableEq

structure SettingsForm where
  council_models : List String
  chairman_model : String
deriving DecidableEq

/-- `nextModels.includes(chairman) ? chairman : nextModels[0] || ''` — the
chairman reassignment expression used whenever the member list changes. -/
def reChair (models : List String) (chairman : String) : String :=
  if models.contains chairman then chairman else models.headD ""

/-- `handleToggleModel` (identical in both App.jsx versions): ignore the
click when it would push an unselected model past the 4-member cap, otherwise
toggle membership and reassign the chairman if needed. -/
def handleToggleModel (model : String) (prev : SettingsForm) : SettingsForm :=
  let isSel := prev.council_models.contains model
  if isSel = false ∧ 4 ≤ prev.council_models.length then prev
  else
    let nextModels :=
      if isSel then prev.council_models.filter (fun m => m ≠ model)
      else prev.council_models ++ [model]
    { council_models := nextModels
      chairman_model := reChair nextModels prev.chairman_model }

inductive SaveOutcome where
  | reject (msg : String)
  | save (council_models : List String) (chairman_model : String)
deriving DecidableEq

/-- The validation at the head of `handleSaveSettings`: an empty selection,
more than 4 members, or a missing chairman is rejected (an error message is
shown and the function returns before any settings API call); otherwise the
current form is what is sent to the server. -/
def handleSaveSettingsCheck (form : SettingsForm) : SaveOutcome :=
  if form.council_models.length = 0 then
    SaveOutcome.reject "Select at least one council member (max 4)."
  else if 4 < form.council_models.length then
    SaveOutcome.reject "Council limited to 4 members."
  else if form.chairman_model = "" then
    SaveOutcome.reject "Choose a chairman from the selected members."
  else
    SaveOutcome.save form.council_models form.chairman_model

/-- The settings-editor state touched by the council-editing handlers. -/
structure EditState where
  councils : List Council
  settingsForm : SettingsForm
  editingCouncilKey : String
  editingCouncilName : String
  isNewCouncil : Bool
  dirtyCouncils : List String
  councilError : String
  settingsError : String
  availableModels : List String
deriving DecidableEq

/-- `Set.add` on the dirty-council key set (embedded as a duplicate-free
insertion into a list). -/
def insertKey (k : String) (l : List String) : List String :=
  if l.contains k then l else l ++ [k]

/-- `handleRemoveModel`: refuse when some *other* council would be left
empty; otherwise drop the model from the editing form, from every council
that uses it (reassigning chairmen), mark those councils dirty, and drop it
from the available roster. -/
def handleRemoveModel (model : String) (st : EditState) : EditState :=
  let st0 := { st with settingsError := "", councilError := "" }
  match st0.councils.find? (fun c =>
      (c.key != st0.editingCouncilKey) && c.council_models.contains model &&
        decide (c.council_models.length ≤ 1)) with
  | some blocking =>
    { st0 with
      councilError := blocking.name ++ " would have no members if you remove "
        ++ model ++ ". Add another model first." }
  | none =>
    let editingUses := st0.settingsForm.council_models.contains model
    let nextModels :=
      if editingUses then st0.settingsForm.council_models.filter (fun m => m ≠ model)
      else st0.settingsForm.council_models
    let councils2 := st0.councils.map (fun c =>
      if c.council_models.contains model then
        let trimmedModels := c.council_models.filter (fun m => m ≠ model)
        { c with
          council_models := trimmedModels
          chairman_model := reChair trimmedModels c.chairman_model }
      else c)
    let changedKeys :=
      (st0.councils.filter (fun c => c.council_models.contains model)).map Council.key
    let dirty1 := changedKeys.foldl (fun acc k => insertKey k acc) st0.dirtyCouncils
    let dirty2 :=
      if editingUses && !st0.isNewCouncil then insertKey st0.editingCouncilKey dirty1
      else dirty1
    { st0 with
      councils := councils2
      dirtyCouncils := dirty2
      settingsForm :=
        { council_models := nextModels
          chairman_model := reChair nextModels st0.settingsForm.chairman_model }
      availableModels := st0.availableModels.filter (fun m => m ≠ model) }

/-- `handleSelectEditingCouncil`: load the chosen council's members and
chairman into the editing form (no-op when the key is unknown). -/
def handleSelectEditingCouncil (key : String) (st : EditState) : EditState :=
  match st.councils.find? (fun c => c.key == key) with
  | none => st
  | some council =>
    { st with
      editingCouncilKey := council.key
      editingCouncilName := council.name
      isNewCouncil := false
      settingsForm :=
        { council_models := council.council_models
          chairman_model := council.chairman_model }
      councilError := "" }

/-- The data-model invariant: the designated chairman is a member whenever
the council has members. -/
def chairmanInv (models : List String) (chairman : String) : Prop :=
  models ≠ [] → chairman ∈ models

/-- The invariant over the whole settings-editor state. -/
def editInv (st : EditState) : Prop :=
  chairmanInv st.settingsForm.council_models st.settingsForm.chairman_model ∧
  ∀ c ∈ st.councils, chairmanInv c.council_models c.chairman_model

theorem headD_mem {α : Type} (l : List α) (d : α) (h : l ≠ []) : l.headD d ∈ l := by
  rcases l with _ | ⟨a, l⟩
  · exact absurd rfl h
  · simp

theorem reChair_inv (models : List String) (chairman : String) :
    chairmanInv models (reChair models chairman) := by
  intro hne
  unfold reChair
  split
  · next hc => simpa using hc
  · exact headD_mem _ _ hne

/-- C3. At configuration time the council member list saved to the server
always has between 1 and 4 entries: toggling an unselected model with 4
already selected leaves the selection unchanged; `handleSaveSettings` rejects
an empty selection and any selection of more than 4 models without reaching
the settings API; and any selection it does send has 1–4 entries. -/
theorem claim_C3_saved_council_size_1_to_4 :
    (∀ (prev : SettingsForm) (model : String),
      model ∉ prev.council_models → 4 ≤ prev.council_models.length →
      handleToggleModel model prev = prev) ∧
    (∀ form : SettingsForm, form.council_models.length = 0 →
      ∃ msg, handleSaveSettingsCheck form = SaveOutcome.reject msg) ∧
    (∀ form : SettingsForm, 4 < form.council_models.length →
      ∃ msg, handleSaveSettingsCheck form = SaveOutcome.reject msg) ∧
    (∀ (form : SettingsForm) (ms : List String) (c : String),
      handleSaveSettingsCheck form = SaveOutcome.save ms c →
      1 ≤ ms.length ∧ ms.length ≤ 4) := by
  refine ⟨?_, ?_, ?_, ?_⟩
  · intro prev model hmem hlen
    have hc : prev.council_models.contains model = false := by
      simpa using hmem
    simp [handleToggleModel, hc, hlen, hmem]
  · intro form h0
    exact ⟨"Select at least one council member (max 4).", by
      simp [handleSaveSettingsCheck, h0]⟩
  · intro form h4
    refine ⟨"Council limited to 4 members.", ?_⟩
    have h0 : ¬ form.council_models.length = 0 := by omega
    simp [handleSaveSettingsCheck, h0, h4]
  · intro form ms c h
    unfold handleSaveSettingsCheck at h
    split at h
    · simp at h
    · split at h
      · simp at h
      · split at h
        · simp at h
        · next h0 h4 _ =>
          obtain ⟨h1, h2⟩ := SaveOutcome.save.inj h
          subst h1
          omega

theorem claim_C3_witness :
    handleToggleModel "m5" ⟨["m1", "m2", "m3", "m4"], "m1"⟩ =
      ⟨["m1", "m2", "m3", "m4"], "m1"⟩ ∧
    (∃ msg, handleSaveSettingsCheck ⟨[], ""⟩ = SaveOutcome.reject msg) ∧
    (∃ msg, handleSaveSettingsCheck ⟨["m1", "m2", "m3", "m4", "m5"], "m1"⟩ =
      SaveOutcome.reject msg) ∧
    (1 ≤ (["m1", "m2"] : List String).length ∧ (["m1", "m2"] : List String).length ≤ 4) :=
  ⟨claim_C3_saved_council_size_1_to_4.1 ⟨["m1", "m2", "m3", "m4"], "m1"⟩ "m5"
      (by decide) (by decide),
   claim_C3_saved_council_size_1_to_4.2.1 ⟨[], ""⟩ rfl,
   claim_C3_saved_council_size_1_to_4.2.2.1 ⟨["m1", "m2", "m3", "m4", "m5"], "m1"⟩
      (by decide),
   claim_C3_saved_council_size_1_to_4.2.2.2 ⟨["m1", "m2"], "m1"⟩ ["m1", "m2"] "m1"
      (by decide)⟩

/-- C4. After every council-editing operation (`handleToggleModel`,
`handleRemoveModel`, `handleSelectEditingCouncil`) the chairman of the edited
council is an element of its member list whenever that list is non-empty
(preserved for every council in the state); in particular, removing the model
currently serving as chairman reassigns the chairmanship to the first
remaining member (or to the empty string when no members remain). -/
theorem claim_C4_chairman_is_member :
    (∀ (model : String) (form : SettingsForm),
      chairmanInv form.council_models form.chairman_model →
      chairmanInv (handleToggleModel model form).council_models
        (handleToggleModel model form).chairman_model) ∧
    (∀ (model : String) (st : EditState),
      editInv st → editInv (handleRemoveModel model st)) ∧
    (∀ (key : String) (st : EditState),
      editInv st → editInv (handleSelectEditingCouncil key st)) ∧
    (∀ (model : String) (st : EditState),
      st.councils.find? (fun c =>
        (c.key != st.editingCouncilKey) && c.council_models.contains model &&
          decide (c.council_models.length ≤ 1)) = none →
      st.settingsForm.chairman_model = model →
      (handleRemoveModel model st).settingsForm.chairman_model =
        (st.settingsForm.council_models.filter (fun m => m ≠ model)).headD "") := by
  refine ⟨?_, ?_, ?_, ?_⟩
  · intro model form hinv
    by_cases hcond : form.council_models.contains model = false ∧
        4 ≤ form.council_models.length
    · simp only [handleToggleModel]
      rw [if_pos hcond]
      exact hinv
    · simp only [handleToggleModel]
      rw [if_neg hcond]
      exact reChair_inv _ _
  · intro model st hinv
    obtain ⟨hform, hcl⟩ := hinv
    simp only [handleRemoveModel]
    split
    · exact ⟨hform, fun c hc => hcl c hc⟩
    · refine ⟨reChair_inv _ _, ?_⟩
      intro c' hc'
      rcases List.mem_map.mp hc' with ⟨c, hcmem, rfl⟩
      by_cases hm : c.council_models.contains model = true
      · simp only [hm, if_true]
        exact reChair_inv _ _
      · simp only [hm, if_false]
        exact hcl c hcmem
  · intro key st hinv
    unfold handleSelectEditingCouncil
    split
    · exact hinv
    · next council hfind =>
      exact ⟨hinv.2 council (List.mem_of_find?_eq_some hfind), fun c hc => hinv.2 c hc⟩
  · intro model st hnb hchair
    have hmain : (handleRemoveModel model st).settingsForm.chairman_model =
        reChair (if st.settingsForm.council_models.contains model then
            st.settingsForm.council_models.filter (fun m => m ≠ model)
          else st.settingsForm.council_models) st.settingsForm.chairman_model := by
      simp only [handleRemoveModel, hnb]
    rw [hmain, hchair]
    by_cases hm : st.settingsForm.council_models.contains model = true
    · rw [if_pos hm]
      have hnc : (st.settingsForm.council_models.filter
          (fun m => m ≠ model)).contains model = false := by
        simp [List.mem_filter]
      unfold reChair
      rw [hnc]
      simp
    · have hm' : st.settingsForm.council_models.contains model = false := by
        simpa using hm
      have hmem : model ∉ st.settingsForm.council_models := by
        intro hmm
        exact hm (by simpa using hmm)
      have hfe : st.settingsForm.council_models.filter (fun m => m ≠ model) =
          st.settingsForm.council_models := by
        refine List.filter_eq_self.mpr ?_
        intro a ha
        have hne : a ≠ model := by
          rintro rfl
          exact hmem ha
        simpa using hne
      rw [if_neg hm, hfe]
      unfold reChair
      rw [hm']
      simp

theorem claim_C4_witness :
    (handleRemoveModel "a"
        ⟨[⟨"default", "General", ["a", "b"], "a"⟩], ⟨["a", "b"], "a"⟩, "default",
          "General", false, [], "", "", ["a", "b"]⟩).settingsForm.chairman_model =
      ((["a", "b"] : List String).filter (fun m => m ≠ "a")).headD "" :=
  claim_C4_chairman_is_member.2.2.2 "a"
    ⟨[⟨"default", "General", ["a", "b"], "a"⟩], ⟨["a", "b"], "a"⟩, "default",
      "General", false, [], "", "", ["a", "b"]⟩
    (by decide) rfl

/-! ### Conversation list recency — `sortConversationsByActivity` and
`mergeConversationsWithRecency` (the multi-council App.jsx revision).
Timestamp strings are embedded by their epoch value (`new Date(v).getTime()`
is monotone on the ISO strings produced by the app); an absent field is
`none`, and `toTime` maps `null` to `0` exactly as the comparator does. -/

/-- JavaScript `a || b` when `a` is an absent-or-truthy value. -/
def jsOr {α : Type} (a b : Option α) : Option α :=
  match a with
  | some x => some x
  | none => b

structure ConvRec where
  id : String
  title : Option String
  council_key : Option String
  lastInteracted : Option Nat
  last_interacted_at : Option Nat
  updated_at : Option Nat
  created_at : Option Nat
deriving DecidableEq

/-- `getLastInteracted`: first present of `lastInteracted`,
`last_interacted_at`, `updated_at`, `created_at` (else `null`). -/
def getLastInteracted (c : ConvRec) : Option Nat :=
  jsOr c.lastInteracted (jsOr c.last_interacted_at (jsOr c.updated_at c.created_at))

/-- `toTime`: `value ? new Date(value).getTime() : 0`. -/
def toTime (o : Option Nat) : Nat := o.getD 0

/-- The comparator `(a, b) => toTime(gLI(b)) - toTime(gLI(a))` sorts newest
first; `a` may precede `b` exactly when this relation holds. -/
def recAfter (a b : ConvRec) : Prop :=
  toTime (getLastInteracted b) ≤ toTime (getLastInteracted a)

instance : DecidableRel recAfter := fun a b => by
  unfold recAfter
  infer_instance

instance : IsTotal ConvRec recAfter :=
  ⟨fun a b => by
    unfold recAfter
    exact Nat.le_total _ _⟩

instance : IsTrans ConvRec recAfter :=
  ⟨fun a b c hab hbc => by
    unfold recAfter at hab hbc ⊢
    exact le_trans hbc hab⟩

/-- `sortConversationsByActivity`: `[...list].sort(comparator)` — a stable
sort of a copy of the list, newest interactions first (embedded as insertion
sort, which is stable). -/
def sortConversationsByActivity (l : List ConvRec) : List ConvRec :=
  l.insertionSort recAfter

/-- `new Map(previous.map(c => [c.id, c])).get(id)`: the *last* record with
this id wins, `undefined` when absent. -/
def prevLookup (previous : List ConvRec) (id : String) : Option ConvRec :=
  previous.foldl (fun acc c => if c.id = id then some c else acc) none

/-- The per-record normalization inside `mergeConversationsWithRecency`. -/
def normalizeConv (previous : List ConvRec) (conv : ConvRec) : ConvRec :=
  let p := prevLookup previous conv.id
  { conv with
    council_key := some (jsOrS conv.council_key "default")
    lastInteracted :=
      jsOr (getLastInteracted conv)
        (jsOr (p.bind getLastInteracted) conv.created_at)
    last_interacted_at :=
      jsOr conv.last_interacted_at
        (jsOr (p.bind (fun q => q.last_interacted_at))
          (jsOr (getLastInteracted conv)
            (jsOr (p.bind getLastInteracted) conv.created_at))) }

/-- `mergeConversationsWithRecency`: normalize each incoming record against
the previous list, then sort by recency. -/
def mergeConversationsWithRecency (incoming previous : List ConvRec) : List ConvRec :=
  sortConversationsByActivity (incoming.map (normalizeConv previous))

/-- C9. `sortConversationsByActivity` returns a new array ordered by
last-interaction timestamp descending without mutating its input (the
embedding is pure: the result is a sorted permutation and the argument is
untouched), and `mergeConversationsWithRecency` preserves a previously known
`lastInteracted`/`last_interacted_at` timestamp for every conversation whose
incoming record lacks one (falling back to `created_at` when neither the
incoming nor the previous record has a timestamp), before sorting the merged
list by that recency order. -/
theorem claim_C9_sort_and_merge_recency :
    (∀ l : List ConvRec,
      (sortConversationsByActivity l).Perm l ∧
      (sortConversationsByActivity l).Sorted recAfter) ∧
    (∀ (previous : List ConvRec) (conv p : ConvRec) (t : Nat),
      prevLookup previous conv.id = some p →
      conv.last_interacted_at = none → p.last_interacted_at = some t →
      (normalizeConv previous conv).last_interacted_at = some t) ∧
    (∀ (previous : List ConvRec) (conv p : ConvRec) (t : Nat),
      prevLookup previous conv.id = some p →
      getLastInteracted conv = none → getLastInteracted p = some t →
      (normalizeConv previous conv).lastInteracted = some t) ∧
    (∀ (previous : List ConvRec) (conv : ConvRec),
      getLastInteracted conv = none →
      (prevLookup previous conv.id).bind getLastInteracted = none →
      (normalizeConv previous conv).lastInteracted = conv.created_at) ∧
    (∀ incoming previous : List ConvRec,
      (mergeConversationsWithRecency incoming previous).Perm
        (incoming.map (normalizeConv previous)) ∧
      (mergeConversationsWithRecency incoming previous).Sorted recAfter) := by
  refine ⟨?_, ?_, ?_, ?_, ?_⟩
  · intro l
    exact ⟨List.perm_insertionSort recAfter l, List.sorted_insertionSort recAfter l⟩
  · intro previous conv p t hp hcn hpt
    simp [normalizeConv, hp, hcn, hpt, jsOr]
  · intro previous conv p t hp hcn hpt
    simp [normalizeConv, hp, hcn, hpt, jsOr]
  · intro previous conv hcn hpn
    simp [normalizeConv, hcn, hpn, jsOr]
  · intro incoming previous
    exact ⟨List.perm_insertionSort recAfter _, List.sorted_insertionSort recAfter _⟩

theorem claim_C9_witness :
    (normalizeConv [⟨"c1", none, none, some 50, some 40, none, some 10⟩]
        ⟨"c1", none, none, none, none, none, some 10⟩).last_interacted_at =
      some 40 :=
  claim_C9_sort_and_merge_recency.2.1
    [⟨"c1", none, none, some 50, some 40, none, some 10⟩]
    ⟨"c1", none, none, none, none, none, some 10⟩
    ⟨"c1", none, none, some 50, some 40, none, some 10⟩ 40
    (by decide) rfl rfl

/-! ### The deliberation session and Stage 2 aggregation (spec-modelled)

The backend deliberation engine (`backend/council.py` / `backend/main.py`) is
not among the provided sources — only its frontend consumers are.  The event
sequencing and the Stage 2 aggregation below are therefore modelled from the
specification's own words (§3 invariants, §4.4, §4.6, §6, §7) rather than
translated from code. -/

/-- The nine event types of the interface table, as an inductive tag. -/
inductive SEvent where
  | stage1_start
  | stage1_complete
  | stage2_start
  | stage2_complete
  | stage3_start
  | stage3_complete
  | title_complete
  | complete
  | error
deriving DecidableEq

/-- Modelled from the spec: the Deliberation Session's emitted event sequence
(backend code absent from the sources).  §4.6/§2: the session runs Stage 1,
emits its start/complete events, then Stage 2, then Stage 3, then the title
and terminal `complete` event; a fatal stage failure (`stage1` with zero
successes, or the chairman call in Stage 3) ends the stream with a single
`error` event and no further stage events; Stage 2 never fails fatally (its
all-rankings-unparseable case degrades to the fallback ordering, §4.4/§7). -/
def sessionEvents (stage1Ok chairmanOk : Bool) : List SEvent :=
  [SEvent.stage1_start] ++
    (if stage1Ok then
      [SEvent.stage1_complete, SEvent.stage2_start, SEvent.stage2_complete,
        SEvent.stage3_start] ++
        (if chairmanOk then
          [SEvent.stage3_complete, SEvent.title_complete, SEvent.complete]
        else [SEvent.error])
    else [SEvent.error])

/-- The stage an event belongs to, in pipeline order (terminal events last). -/
def stageRank : SEvent → Nat
  | SEvent.stage1_start => 1
  | SEvent.stage1_complete => 1
  | SEvent.stage2_start => 2
  | SEvent.stage2_complete => 2
  | SEvent.stage3_start => 3
  | SEvent.stage3_complete => 3
  | SEvent.title_complete => 4
  | SEvent.complete => 5
  | SEvent.error => 5

def isTerminal : SEvent → Bool
  | SEvent.complete => true
  | SEvent.error => true
  | _ => false

/-- C5. For every deliberation run the emitted events are totally ordered and
monotonic: an event of a strictly earlier pipeline stage always occupies a
strictly earlier position, so every stage1 event precedes every stage2 event,
every stage2 event precedes every stage3 event, and every stage3 event
precedes the terminal event, which closes the stream. -/
theorem claim_C5_events_totally_ordered (stage1Ok chairmanOk : Bool) :
    (∀ i j : Fin (sessionEvents stage1Ok chairmanOk).length,
      stageRank ((sessionEvents stage1Ok chairmanOk).get i) <
        stageRank ((sessionEvents stage1Ok chairmanOk).get j) → (i : Nat) < j) ∧
    isTerminal ((sessionEvents stage1Ok chairmanOk).getLastD SEvent.error) = true ∧
    ∀ e ∈ (sessionEvents stage1Ok chairmanOk).dropLast, isTerminal e = false := by
  cases stage1Ok <;> cases chairmanOk <;> exact ⟨by decide, by decide, by decide⟩

theorem claim_C5_witness :
    stageRank ((sessionEvents true true).get ⟨1, by decide⟩) <
      stageRank ((sessionEvents true true).get ⟨2, by decide⟩) ∧
    (1 : Nat) < 2 ∧
    isTerminal ((sessionEvents true true).getLastD SEvent.error) = true :=
  ⟨by decide,
   (claim_C5_events_totally_ordered true true).1 ⟨1, by decide⟩ ⟨2, by decide⟩
     (by decide),
   (claim_C5_events_totally_ordered true true).2.1⟩

/-- Modelled from the spec: Borda points (§4.4) — in a valid ranking of k
labels the label placed first receives k−1 points, second k−2, …, last 0;
a label not placed receives nothing. -/
def bordaPoints (ranking : List String) (l : String) : Nat :=
  match ranking.findIdx? (fun m => m == l) with
  | some i => ranking.length - 1 - i
  | none => 0

/-- Modelled from the spec: total Borda score of a label across all valid
rankings. -/
def bordaScore (rankings : List (List String)) (l : String) : Nat :=
  (rankings.map (fun r => bordaPoints r l)).sum

/-- Modelled from the spec: sort labels descending by total score, ties
broken by the original stable Stage 1 order (§4.4's explicit deterministic
tie-break), expressed on index-labelled pairs. -/
def aggLE (rankings : List (List String)) (a b : Nat × String) : Prop :=
  bordaScore rankings b.2 < bordaScore rankings a.2 ∨
    (bordaScore rankings a.2 = bordaScore rankings b.2 ∧ a.1 ≤ b.1)

instance (rankings : List (List String)) : DecidableRel (aggLE rankings) :=
  fun a b => by
    unfold aggLE
    infer_instance

/-- Modelled from the spec: the AggregateRanking — labels in the stable
Stage 1 order, stably sorted by descending Borda score with the index
tie-break. -/
def aggregateRanking (stage1Order : List String)
    (validRankings : List (List String)) : List String :=
  ((stage1Order.enum).insertionSort (aggLE validRankings)).map Prod.snd

theorem le_fst_of_mem_enumFrom {α : Type} :
    ∀ {n : Nat} {l : List α} {q : Nat × α}, q ∈ l.enumFrom n → n ≤ q.1 := by
  intro n l
  induction l generalizing n with
  | nil =>
    intro q hq
    simp [List.enumFrom] at hq
  | cons x xs ihx =>
    intro q hq
    rw [List.enumFrom_cons] at hq
    rcases List.mem_cons.mp hq with rfl | hq'
    · exact le_refl n
    · exact le_trans (Nat.le_succ n) (ihx hq')

theorem enumFrom_sorted_fst {α : Type} :
    ∀ (n : Nat) (l : List α), (l.enumFrom n).Pairwise (fun a b => a.1 ≤ b.1) := by
  intro n l
  induction l generalizing n with
  | nil => simp [List.enumFrom]
  | cons x xs ihx =>
    rw [List.enumFrom_cons]
    refine List.Pairwise.cons ?_ (ihx (n + 1))
    intro q hq
    exact le_trans (Nat.le_succ n) (le_fst_of_mem_enumFrom hq)

/-- C6. If every Stage 2 ranking model fails to produce a valid ranking
(every ranking text is unparseable), the set of valid rankings is empty, the
stage degrades softly — once Stage 1 succeeded the session still emits
`stage2_complete`, never `error`, for Stage 2 — and the AggregateRanking
equals the stable Stage 1 order (the fallback law: with no rankings every
Borda score is 0 and the tie-break reproduces the stable order). -/
theorem claim_C6_all_unparseable_fallback (stage1Order : List String)
    (raws : List String) (parse : String → Option (List String))
    (h : ∀ r ∈ raws, parse r = none) :
    raws.filterMap parse = [] ∧
    aggregateRanking stage1Order (raws.filterMap parse) = stage1Order ∧
    (∀ chairmanOk : Bool, SEvent.stage2_complete ∈ sessionEvents true chairmanOk) := by
  have hnil : raws.filterMap parse = [] := List.filterMap_eq_nil_iff.mpr h
  refine ⟨hnil, ?_, ?_⟩
  · rw [hnil]
    unfold aggregateRanking
    have hsorted : (stage1Order.enum).Sorted (aggLE []) := by
      have hp := enumFrom_sorted_fst 0 stage1Order
      rw [← List.enum_eq_enumFrom] at hp
      refine hp.imp ?_
      intro a b hab
      exact Or.inr ⟨rfl, hab⟩
    rw [List.Sorted.insertionSort_eq hsorted, List.enum_eq_enumFrom,
      List.enumFrom_map_snd]
  · intro chairmanOk
    cases chairmanOk <;> decide

theorem claim_C6_witness :
    aggregateRanking ["A", "B", "C"]
        ((["garbage"] : List String).filterMap
          (fun _ => (none : Option (List String)))) =
      ["A", "B", "C"] :=
  (claim_C6_all_unparseable_fallback ["A", "B", "C"] ["garbage"]
    (fun _ => none) (fun _ _ => rfl)).2.1

example :
    aggregateRanking ["A", "B", "C"]
      [["A", "B", "C"], ["A", "B", "C"], ["B", "A", "C"]] = ["A", "B", "C"] := by
  decide

example : aggregateRanking ["A", "B"] [["A", "B"], ["B", "A"]] = ["A", "B"] := by
  decide

theorem claim_C8_witness :
    (handleSendFailure (δ := Nat) (μ := Nat) (some "boom")
        (appendOptimistic "hi"
          (sendStart ⟨⟨"c1", none, none, []⟩, false, ""⟩))).currentConversation.messages =
      [] ∧
    (handleSendFailure (δ := Nat) (μ := Nat) (some "boom")
        (appendOptimistic "hi"
          (sendStart ⟨⟨"c1", none, none, []⟩, false, ""⟩))).sendError ≠ "" ∧
    (handleSendFailure (δ := Nat) (μ := Nat) (some "boom")
        (appendOptimistic "hi"
          (sendStart ⟨⟨"c1", none, none, []⟩, false, ""⟩))).isLoading = false :=
  claim_C8_catch_restores_prior_messages ⟨⟨"c1", none, none, []⟩, false, ""⟩
    "hi" (some "boom")

theorem claim_C1_witness :
    runStream (fun s => if s = "1".toList then some 1 else none) (fun _ => "t")
        [] ["data: 1\n\ndata: 1".toList] =
      ("data: 1".toList, [("t", 1)]) := by
  have h := claim_C1_sse_event_delivery
    (fun s => if s = "1".toList then some 1 else none) (fun _ => "t")
    ["data: 1\n\ndata: 1".toList]
  rw [h]
  decide
